import Mathlib

/-!
# Verification of the classtime course-list front-end core

Shallow embedding of `fastCourseListCtrl.js` (the `fastCourseListCtrl` and
`accordionCtrl` AngularJS controllers): the page aggregator that groups
course records into the `subjectBin` structure, the course-number
comparator, the debounced search-box filter, the lazy description loader,
and the add-to-schedule list.  JavaScript objects used as string-keyed
maps are modelled as association lists (first-key lookup, in-place update,
append of fresh keys), which matches property creation and
`hasOwnProperty` on a plain JS object built only by assignments.
-/

namespace Classtime

/-- First-match lookup in an association list; models reading a property
of a JS object (`obj[k]`, with `hasOwnProperty` as `(lookupA l k).isSome`). -/
def lookupA {κ α : Type} [DecidableEq κ] : List (κ × α) → κ → Option α
  | [], _ => none
  | (k, v) :: rest, key => if k = key then some v else lookupA rest key

/-- Property assignment `obj[k] = v` on a JS object: overwrite the existing
key in place, otherwise append a fresh key at the end. -/
def setA {κ α : Type} [DecidableEq κ] : List (κ × α) → κ → α → List (κ × α)
  | [], key, v => [(key, v)]
  | (k, w) :: rest, key, v =>
      if k = key then (key, v) :: rest else (k, w) :: setA rest key v

theorem lookupA_setA_self {κ α : Type} [DecidableEq κ]
    (l : List (κ × α)) (k : κ) (v : α) : lookupA (setA l k v) k = some v := by
  induction l with
  | nil => simp [setA, lookupA]
  | cons hd tl ih =>
      obtain ⟨k', w⟩ := hd
      by_cases h : k' = k
      · simp [setA, lookupA, h]
      · simp [setA, lookupA, h, ih]

theorem lookupA_setA_other {κ α : Type} [DecidableEq κ]
    (l : List (κ × α)) (k k' : κ) (v : α) (hne : k ≠ k') :
    lookupA (setA l k v) k' = lookupA l k' := by
  induction l with
  | nil => simp [setA, lookupA, hne]
  | cons hd tl ih =>
      obtain ⟨k0, w⟩ := hd
      by_cases h : k0 = k
      · subst h
        simp [setA, lookupA, hne]
      · simp [setA, lookupA, h, ih]

/-! ## Course records and the simplified grouped structure

`fastCourseListCtrl` reads exactly three fields of each record in a page's
`objects` array: `faculty`, `subject` and `asString`. -/

/-- A course record as consumed by the aggregator. -/
structure Course where
  faculty : String
  subject : String
  asString : String
deriving DecidableEq, Repr

/-- `subjectBin[faculty]`: subject code → list of course display strings. -/
abbrev FacBin := List (String × List String)

/-- The simplified grouped structure `subjectBin`:
faculty name → subject code → display strings, in insertion order. -/
abbrev SubjectBin := List (String × FacBin)

/-- One iteration of the page-merge `forEach` body in `fastCourseListCtrl`
(lines 32–47): create the faculty and subject keys if absent, then append
the course's display string `course.asString` to the subject's array. -/
def insertCourse (bin : SubjectBin) (course : Course) : SubjectBin :=
  match lookupA bin course.faculty with
  | some facBin =>
      match lookupA facBin course.subject with
      | some courses =>
          setA bin course.faculty (setA facBin course.subject (courses ++ [course.asString]))
      | none =>
          setA bin course.faculty (setA facBin course.subject [course.asString])
  | none =>
      setA bin course.faculty [(course.subject, [course.asString])]

/-- Merging one page's `objects` array into the shared `subjectBin`. -/
def mergePage (bin : SubjectBin) (objects : List Course) : SubjectBin :=
  objects.foldl insertCourse bin

/-- Aggregating a sequence of resolved pages, in resolution order, into the
initially empty `subjectBin`. -/
def aggregatePages (pages : List (List Course)) : SubjectBin :=
  pages.foldl mergePage []

/-- Number of occurrences of the display string `str` in the grouped
structure at `bin[f][s]` (0 when either key is absent). -/
def countBin (bin : SubjectBin) (f s str : String) : Nat :=
  match lookupA bin f with
  | none => 0
  | some facBin =>
      match lookupA facBin s with
      | none => 0
      | some courses => courses.count str

/-- Number of course records on one page matching faculty `f`, subject `s`
and display string `str`. -/
def countPage (objects : List Course) (f s str : String) : Nat :=
  objects.countP (fun c => c.faculty = f ∧ c.subject = s ∧ c.asString = str)

theorem count_singleton_ite (str x : String) :
    List.count str [x] = if x = str then 1 else 0 := by
  by_cases hx : x = str <;> simp [List.count_cons, hx]

theorem countBin_insertCourse (bin : SubjectBin) (c : Course) (f s str : String) :
    countBin (insertCourse bin c) f s str =
      countBin bin f s str +
        (if c.faculty = f ∧ c.subject = s ∧ c.asString = str then 1 else 0) := by
  by_cases hf : c.faculty = f
  case neg =>
    have hbin : lookupA (insertCourse bin c) f = lookupA bin f := by
      cases hfb : lookupA bin c.faculty with
      | none =>
          simp only [insertCourse, hfb]
          exact lookupA_setA_other _ _ _ _ hf
      | some facBin =>
          cases hsb : lookupA facBin c.subject with
          | none =>
              simp only [insertCourse, hfb, hsb]
              exact lookupA_setA_other _ _ _ _ hf
          | some courses =>
              simp only [insertCourse, hfb, hsb]
              exact lookupA_setA_other _ _ _ _ hf
    unfold countBin
    rw [hbin]
    simp [hf]
  case pos =>
    subst hf
    cases hfb : lookupA bin c.faculty with
    | none =>
        have hins : insertCourse bin c = setA bin c.faculty [(c.subject, [c.asString])] := by
          simp [insertCourse, hfb]
        unfold countBin
        simp only [hins, lookupA_setA_self, hfb]
        by_cases hs : c.subject = s
        · subst hs
          simp [lookupA, count_singleton_ite]
        · simp [lookupA, hs]
    | some facBin =>
        cases hsb : lookupA facBin c.subject with
        | none =>
            have hins : insertCourse bin c =
                setA bin c.faculty (setA facBin c.subject [c.asString]) := by
              simp [insertCourse, hfb, hsb]
            unfold countBin
            simp only [hins, lookupA_setA_self, hfb]
            by_cases hs : c.subject = s
            · subst hs
              simp only [lookupA_setA_self, hsb]
              simp [count_singleton_ite]
            · simp only [lookupA_setA_other facBin c.subject s _ hs]
              simp [hs]
        | some courses =>
            have hins : insertCourse bin c =
                setA bin c.faculty (setA facBin c.subject (courses ++ [c.asString])) := by
              simp [insertCourse, hfb, hsb]
            unfold countBin
            simp only [hins, lookupA_setA_self, hfb]
            by_cases hs : c.subject = s
            · subst hs
              simp only [lookupA_setA_self, hsb]
              simp [List.count_append, count_singleton_ite]
            · simp only [lookupA_setA_other facBin c.subject s _ hs]
              simp [hs]

theorem countBin_mergePage (objects : List Course) (bin : SubjectBin) (f s str : String) :
    countBin (mergePage bin objects) f s str =
      countBin bin f s str + countPage objects f s str := by
  induction objects generalizing bin with
  | nil => simp [mergePage, countPage]
  | cons c rest ih =>
      simp only [mergePage, List.foldl_cons] at *
      rw [ih (insertCourse bin c), countBin_insertCourse]
      simp [countPage, List.countP_cons]
      by_cases h : c.faculty = f ∧ c.subject = s ∧ c.asString = str
      · simp only [h, if_true]
        omega
      · simp only [h, if_false]
        omega

theorem countBin_aggregatePages (pages : List (List Course)) (f s str : String) :
    countBin (aggregatePages pages) f s str =
      (pages.map (fun p => countPage p f s str)).sum := by
  suffices h : ∀ bin, countBin (pages.foldl mergePage bin) f s str =
      countBin bin f s str + (pages.map (fun p => countPage p f s str)).sum by
    have := h []
    simpa [aggregatePages, countBin, lookupA] using this
  induction pages with
  | nil => intro bin; simp
  | cons p rest ih =>
      intro bin
      simp only [List.foldl_cons, List.map_cons, List.sum_cons]
      rw [ih (mergePage bin p), countBin_mergePage]
      omega

/-! ## The page-fetch loop of `fastCourseListCtrl`

`page` starts at `1`; the success callback of the initial
`getCoursesPage(1)` call stores `total_pages` and then runs
`while (page < (total_pages + 1)) { getCoursesPage(page); page = page + 1 }`. -/

/-- The list of page numbers requested by the `while` loop, starting from a
given value of the `page` counter (the loop body issues one fetch per
iteration and increments `page`). -/
def loopAux (total_pages page : Nat) : List Nat :=
  if page < total_pages + 1 then page :: loopAux total_pages (page + 1) else []
termination_by total_pages + 1 - page

/-- Page numbers requested by the `while` loop; the `page` counter is `1`
when the loop starts. -/
def loopPages (total_pages : Nat) : List Nat := loopAux total_pages 1

/-- All page numbers requested over the whole run, in issue order: the
initial `getCoursesPage(1)` used to discover `total_pages`, then the loop's
requests (issued only after the initial request has resolved). -/
def allRequests (total_pages : Nat) : List Nat := 1 :: loopPages total_pages

theorem loopAux_eq_range'_aux (fuel : Nat) : ∀ total_pages page,
    total_pages + 1 - page ≤ fuel →
    loopAux total_pages page = List.range' page (total_pages + 1 - page) := by
  induction fuel with
  | zero =>
      intro tp p hle
      rw [loopAux]
      have h : ¬ p < tp + 1 := by omega
      rw [if_neg h]
      have hzero : tp + 1 - p = 0 := by omega
      rw [hzero]
      rfl
  | succ n ih =>
      intro tp p hle
      rw [loopAux]
      by_cases h : p < tp + 1
      · rw [if_pos h, ih tp (p + 1) (by omega)]
        have hsucc : tp + 1 - p = (tp + 1 - (p + 1)) + 1 := by omega
        rw [hsucc, List.range'_succ]
      · rw [if_neg h]
        have hzero : tp + 1 - p = 0 := by omega
        rw [hzero]
        rfl

theorem loopAux_eq_range' (total_pages page : Nat) :
    loopAux total_pages page = List.range' page (total_pages + 1 - page) :=
  loopAux_eq_range'_aux (total_pages + 1 - page) total_pages page le_rfl

theorem loopPages_eq_range' (total_pages : Nat) :
    loopPages total_pages = List.range' 1 total_pages := by
  rw [loopPages, loopAux_eq_range']
  norm_num

/-- A deserialized page response: the `objects` array and `total_pages`. -/
structure PageObject where
  objects : List Course
  total_pages : Nat

/-- The whole aggregation run against a response table `fetch`: the initial
fetch of page 1 only reads `total_pages`; the loop then fetches pages
`loopPages total_pages` and merges each response's `objects`. -/
def aggregateRun (fetch : Nat → PageObject) : SubjectBin :=
  aggregatePages (((fetch 1).total_pages |> loopPages).map (fun p => (fetch p).objects))

/-! ## The course-number comparator of `accordionCtrl`

`compareByCourseNumber(a, b)` computes `a.asString.match(/\d+/)` and
`b.asString.match(/\d+/)` and compares the two match results with the JS
relational operators `<` and `>`.  A successful match converts (via
`ToPrimitive`) to the matched substring, so two successful matches compare
as strings: lexicographically by character code.  A failed match is `null`;
mixed comparisons then go through `ToNumber` (`null` becomes `0`, a digit
string its numeric value). -/

/-- Longest prefix of ASCII digits (the continuation of a `\d+` match). -/
def takeDigits : List Char → List Char
  | [] => []
  | c :: rest => if c.isDigit then c :: takeDigits rest else []

/-- `str.match(/\d+/)`: the first maximal run of ASCII digits of the
string, or `none` when the string has no digit. -/
def firstDigitRun : List Char → Option (List Char)
  | [] => none
  | c :: rest => if c.isDigit then some (takeDigits (c :: rest)) else firstDigitRun rest

/-- Numeric value of a digit string (JS `ToNumber` on the match). -/
def digitsToNat (l : List Char) : Nat :=
  l.foldl (fun acc c => acc * 10 + (c.toNat - '0'.toNat)) 0

/-- JS string comparison: lexicographic by character code, a strict prefix
comparing smaller. -/
def charListLt : List Char → List Char → Bool
  | [], [] => false
  | [], _ :: _ => true
  | _ :: _, [] => false
  | a :: as, b :: bs => if a < b then true else if b < a then false else charListLt as bs

/-- JS `<` applied to two `match(/\d+/)` results: two matches compare as
strings; `null` against a match compares numerically with `ToNumber null = 0`. -/
def jsMatchLt : Option (List Char) → Option (List Char) → Bool
  | some a, some b => charListLt a b
  | none, some b => decide (0 < digitsToNat b)
  | some _, none => false
  | none, none => false

/-- `compareByCourseNumber` (accordionCtrl lines 224–237): `-1` when
`aNum < bNum`, `1` when `aNum > bNum`, else `0`. -/
def compareByCourseNumber (a b : Course) : Int :=
  let aNum := firstDigitRun a.asString.data
  let bNum := firstDigitRun b.asString.data
  if jsMatchLt aNum bNum then -1
  else if jsMatchLt bNum aNum then 1
  else 0

/-- Insertion step of a comparator sort: keep the existing relative
position while the comparator does not demand a swap. -/
def insertSorted (cmp : Course → Course → Int) (x : Course) : List Course → List Course
  | [] => [x]
  | y :: ys => if cmp x y ≤ 0 then x :: y :: ys else y :: insertSorted cmp x ys

/-- `Array.prototype.sort(cmp)` on a small list, as an insertion sort; on a
two-element list every comparator-respecting sort produces this result. -/
def sortWith (cmp : Course → Course → Int) (l : List Course) : List Course :=
  l.foldr (insertSorted cmp) []

/-! ## The search-box debouncer of `fastCourseListCtrl` (lines 72–80)

On every change of `searchBox`: cancel a pending `$timeout` if one exists,
store the new value in `tempFilterText`, and schedule a new `$timeout`
that after the delay copies `tempFilterText` into `filterText`.  Time is
modelled in whole milliseconds; a change event is a `(time, value)` pair
and a pending `$timeout` is recorded by its scheduled fire time. -/

structure DebState where
  tempFilterText : String
  filterText : String
  pending : Option Nat
deriving Repr, DecidableEq

def debInit : DebState := { tempFilterText := "", filterText := "", pending := none }

/-- The `$watch('searchBox', ...)` listener at time `now`: cancel any
pending timeout, store the raw value, schedule a publish `delay` ms later. -/
def watchSearchBox (delay now : Nat) (val : String) (s : DebState) : DebState :=
  { s with tempFilterText := val, pending := some (now + delay) }

/-- The `$timeout` callback: publish `tempFilterText` into `filterText`. -/
def timerFire (s : DebState) : DebState :=
  { s with filterText := s.tempFilterText, pending := none }

/-- Event-loop run of the debouncer over a list of change events: before
handling an event, a pending timeout whose fire time has arrived fires
first (recording the publish); after the last event a still-pending
timeout fires unopposed.  Returns the published `(time, value)` pairs. -/
def runFrom (delay : Nat) (s : DebState) : List (Nat × String) → List (Nat × String)
  | [] =>
      match s.pending with
      | some f => [(f, s.tempFilterText)]
      | none => []
  | ev :: rest =>
      match s.pending with
      | some f =>
          if f ≤ ev.1 then
            (f, s.tempFilterText) :: runFrom delay (watchSearchBox delay ev.1 ev.2 (timerFire s)) rest
          else
            runFrom delay (watchSearchBox delay ev.1 ev.2 s) rest
      | none => runFrom delay (watchSearchBox delay ev.1 ev.2 s) rest

/-- All publishes produced by a sequence of search-box changes, starting
from the initial controller state. -/
def runDebounce (delay : Nat) (events : List (Nat × String)) : List (Nat × String) :=
  runFrom delay debInit events

/-- Written from the spec's debounce description, for comparison with the
code model: an event's value is published, `delay` ms after the event,
exactly when the event is the last one or the next event arrives at or
after the scheduled fire time (a quiet window). -/
def specQuietPublishes (delay : Nat) : List (Nat × String) → List (Nat × String)
  | [] => []
  | [(t, v)] => [(t + delay, v)]
  | (t, v) :: e2 :: rest =>
      if t + delay ≤ e2.1 then (t + delay, v) :: specQuietPublishes delay (e2 :: rest)
      else specQuietPublishes delay (e2 :: rest)

/-! ## The description loader of `accordionCtrl` (`$scope.loadMore`)

`$scope.description` is a JS object keyed by course id; `loadMore` issues
a `detailFactory.getDetails` request only when the id is not yet a key.
The success callback stores `result.courseDescription`; the error callback
only raises an alert.  The cache is only written by the success callback,
so two calls with no response in between both issue a request. -/

structure DescState where
  description : List (Nat × String)
  networkCalls : Nat
  alerts : Nat
deriving Repr, DecidableEq

def descInit : DescState := { description := [], networkCalls := 0, alerts := 0 }

/-- `$scope.loadMore(courseIdNumber)`: call the API only if the id is not
yet a key of `$scope.description`. -/
def loadMore (s : DescState) (courseIdNumber : Nat) : DescState :=
  if (lookupA s.description courseIdNumber).isSome then s
  else { s with networkCalls := s.networkCalls + 1 }

/-- The `getDetails` success callback: store the fetched description text
under the course id. -/
def detailsSuccess (s : DescState) (courseIdNumber : Nat) (text : String) : DescState :=
  { s with description := setA s.description courseIdNumber text }

/-- The `getDetails` error callback: `$window.alert(...)` only; the cache
is untouched. -/
def detailsError (s : DescState) : DescState :=
  { s with alerts := s.alerts + 1 }

/-! ## The schedule list of `accordionCtrl` (`$scope.addToSchedule`)

`addedCourses.indexOf(course)` uses JS strict equality `===`, which on
objects is reference identity; a course object is therefore modelled with
an object-identity token `ref` next to its record fields, and two records
are value-equal when all record fields agree. -/

structure JsCourse where
  ref : Nat
  faculty : String
  subject : String
  asString : String
deriving Repr, DecidableEq

/-- JS `===` on two course objects: reference identity. -/
def jsStrictEq (a b : JsCourse) : Bool := a.ref == b.ref

/-- Structural (value) equality of the record fields, ignoring identity. -/
def jsValueEq (a b : JsCourse) : Bool :=
  a.faculty == b.faculty && a.subject == b.subject && a.asString == b.asString

/-- `Array.prototype.indexOf` with `===`, returning `-1` when absent. -/
def indexOfAux (c : JsCourse) : List JsCourse → Nat → Int
  | [], _ => -1
  | x :: rest, i => if jsStrictEq x c then (i : Int) else indexOfAux c rest (i + 1)

def indexOfJs (l : List JsCourse) (c : JsCourse) : Int := indexOfAux c l 0

structure ScheduleState where
  addedCourses : List JsCourse
  shoppingCartSize : Nat
deriving Repr, DecidableEq

/-- `$rootScope.addedCourses = []; $rootScope.shoppingCartSize = 0`. -/
def scheduleInit : ScheduleState := { addedCourses := [], shoppingCartSize := 0 }

/-- `$scope.addToSchedule(course)`: push and bump the tally only when
`indexOf` does not find the course. -/
def addToSchedule (s : ScheduleState) (course : JsCourse) : ScheduleState :=
  if indexOfJs s.addedCourses course = -1 then
    { addedCourses := s.addedCourses ++ [course],
      shoppingCartSize := s.shoppingCartSize + 1 }
  else s

/-! ## The richer grouped variant of `accordionCtrl` (`insertIntoSubjectBin`)

`$scope.subjectBin` is an array of `{faculty, subjects}` entries.  For an
already-present faculty name the code runs `subjectBinObject.push(Ssubject)`
— `push` on a plain object, which is `undefined`, so the call throws a
`TypeError` (the adjacent comment says "Push onto subjects array").  The
throw is modelled with `Except`; subject objects are opaque to the code
and modelled as strings. -/

structure FacEntry where
  faculty : String
  subjects : List String
deriving Repr, DecidableEq

/-- `insertIntoSubjectBin(SFacultyGroup)` acting on the current bin.  With
a matching faculty entry and a nonempty `subjects` array the first inner
iteration evaluates `subjectBinObject.push`, which is `undefined` on a
plain object: a `TypeError` is thrown and nothing is appended.  With no
matching faculty a fresh `{faculty, subjects}` entry is appended. -/
def insertIntoSubjectBin (bin : List FacEntry) (group : FacEntry) :
    Except String (List FacEntry) :=
  if bin.any (fun e => e.faculty == group.faculty) then
    if group.subjects.isEmpty then Except.ok bin
    else Except.error "TypeError: subjectBinObject.push is not a function"
  else
    Except.ok (bin ++ [{ faculty := group.faculty, subjects := group.subjects }])

/-! ## Supporting lemmas -/

theorem runFrom_pending (delay : Nat) (events : List (Nat × String)) :
    ∀ (t : Nat) (v : String) (s : DebState),
      s.pending = some (t + delay) → s.tempFilterText = v →
      runFrom delay s events = specQuietPublishes delay ((t, v) :: events) := by
  induction events with
  | nil =>
      intro t v s hp ht
      simp [runFrom, hp, ht, specQuietPublishes]
  | cons ev rest ih =>
      intro t v s hp ht
      obtain ⟨t2, v2⟩ := ev
      simp only [runFrom, hp, ht]
      by_cases h : t + delay ≤ t2
      · rw [if_pos h, ih t2 v2 _ rfl rfl]
        simp [specQuietPublishes, h]
      · rw [if_neg h, ih t2 v2 _ rfl rfl]
        simp [specQuietPublishes, h]

theorem runDebounce_eq_quiet (delay : Nat) (events : List (Nat × String)) :
    runDebounce delay events = specQuietPublishes delay events := by
  cases events with
  | nil => rfl
  | cons ev rest =>
      obtain ⟨t, v⟩ := ev
      unfold runDebounce
      simp only [runFrom, debInit]
      exact runFrom_pending delay rest t v _ rfl rfl

theorem indexOfAux_ge (c : JsCourse) (l : List JsCourse) :
    ∀ i : Nat, (∃ x ∈ l, jsStrictEq x c) → (i : Int) ≤ indexOfAux c l i := by
  induction l with
  | nil =>
      intro i h
      simp at h
  | cons y ys ih =>
      intro i h
      unfold indexOfAux
      by_cases hy : jsStrictEq y c
      · rw [if_pos hy]
      · rw [if_neg hy]
        have hex : ∃ x ∈ ys, jsStrictEq x c := by
          obtain ⟨x, hx, he⟩ := h
          rcases List.mem_cons.mp hx with hxy | hxys
          · exact absurd (hxy ▸ he) hy
          · exact ⟨x, hxys, he⟩
        have hge := ih (i + 1) hex
        have : (i : Int) ≤ ((i + 1 : Nat) : Int) := by push_cast; omega
        omega

/-! ## Claim theorems -/

/-- C1: `compareByCourseNumber` compares the first digit runs of the two
display strings as matched substrings — lexicographically by character,
not as parsed integers — and sorting `"CMPUT 2"` and `"CMPUT 10"` with it
yields `["CMPUT 10", "CMPUT 2"]`. -/
theorem compareByCourseNumber_lex (a b : Course) (ra rb : List Char)
    (ha : firstDigitRun a.asString.data = some ra)
    (hb : firstDigitRun b.asString.data = some rb) :
    compareByCourseNumber a b =
      (if charListLt ra rb then -1 else if charListLt rb ra then 1 else 0) ∧
    sortWith compareByCourseNumber
        [⟨"Science", "CMPUT", "CMPUT 2"⟩, ⟨"Science", "CMPUT", "CMPUT 10"⟩] =
      [⟨"Science", "CMPUT", "CMPUT 10"⟩, ⟨"Science", "CMPUT", "CMPUT 2"⟩] := by
  constructor
  · simp only [compareByCourseNumber]
    rw [ha, hb]
    rfl
  · rfl

/-- Witness for C1 at the scenario's two courses: the comparator orders
`"CMPUT 2"` after `"CMPUT 10"`. -/
theorem compareByCourseNumber_lex_witness :
    compareByCourseNumber ⟨"Science", "CMPUT", "CMPUT 2"⟩
      ⟨"Science", "CMPUT", "CMPUT 10"⟩ = 1 := by
  rw [(compareByCourseNumber_lex ⟨"Science", "CMPUT", "CMPUT 2"⟩
        ⟨"Science", "CMPUT", "CMPUT 10"⟩ ['2'] ['1', '0'] rfl rfl).1]
  rfl

/-- C2: a course record occurring exactly once across all fetched pages
appears exactly once in the grouped structure at its faculty and subject,
for every merge order of the pages. -/
theorem course_appears_once (pages : List (List Course)) (c : Course)
    (h : (pages.map (fun p => countPage p c.faculty c.subject c.asString)).sum = 1) :
    countBin (aggregatePages pages) c.faculty c.subject c.asString = 1 ∧
    ∀ pages' : List (List Course), pages'.Perm pages →
      countBin (aggregatePages pages') c.faculty c.subject c.asString = 1 := by
  constructor
  · rw [countBin_aggregatePages]
    exact h
  · intro pages' hperm
    rw [countBin_aggregatePages, ← h]
    exact (hperm.map _).sum_eq

/-- Witness for C2: one course on one of two pages is grouped exactly once. -/
theorem course_appears_once_witness :
    countBin (aggregatePages [[⟨"Science", "CMPUT", "CMPUT 101"⟩],
        [⟨"Arts", "ENGL", "ENGL 102"⟩]]) "Science" "CMPUT" "CMPUT 101" = 1 :=
  (course_appears_once [[⟨"Science", "CMPUT", "CMPUT 101"⟩],
      [⟨"Arts", "ENGL", "ENGL 102"⟩]] ⟨"Science", "CMPUT", "CMPUT 101"⟩ (by decide)).1

/-- C3 counterexample: with `total_pages = 2` the `while` loop requests
pages `[1, 2]` — not `[2]` — and page 1 is requested twice over the run. -/
theorem fetch_pages_counterexample :
    loopPages 2 = [1, 2] ∧ loopPages 2 ≠ [2] ∧ (allRequests 2).count 1 = 2 := by
  have h : loopPages 2 = [1, 2] := by
    rw [loopPages_eq_range']
    rfl
  refine ⟨h, by rw [h]; decide, ?_⟩
  unfold allRequests
  rw [h]
  decide

/-- C3 amended: the loop requests pages `1 .. total_pages` (so page 1 is
fetched a second time), all of them issued after the initial
`getCoursesPage(1)` request used to discover `total_pages`. -/
theorem fetch_pages_amended (total_pages : Nat) (h : 1 ≤ total_pages) :
    loopPages total_pages = List.range' 1 total_pages ∧
    allRequests total_pages = 1 :: List.range' 1 total_pages ∧
    (allRequests total_pages).count 1 = 2 := by
  have hl : loopPages total_pages = List.range' 1 total_pages :=
    loopPages_eq_range' total_pages
  refine ⟨hl, by unfold allRequests; rw [hl], ?_⟩
  unfold allRequests
  rw [hl, List.count_cons]
  have hone : (List.range' 1 total_pages).count 1 = 1 :=
    List.count_eq_one_of_mem (List.nodup_range' 1 total_pages 1 (by norm_num))
      (List.mem_range'_1.mpr ⟨le_refl 1, by omega⟩)
  rw [hone]
  rfl

/-- Witness for C3 amended at `total_pages = 3`. -/
theorem fetch_pages_amended_witness :
    loopPages 3 = List.range' 1 3 ∧
    allRequests 3 = 1 :: List.range' 1 3 ∧
    (allRequests 3).count 1 = 2 :=
  fetch_pages_amended 3 (by decide)

/-- C4: merging a faculty group into an existing faculty entry does not
append its subjects — the code calls `.push` on the faculty entry object
itself, which throws a `TypeError` — while merging under a new faculty
name does append a fresh `{faculty, subjects}` entry. -/
theorem insertIntoSubjectBin_existing_throws :
    insertIntoSubjectBin [{ faculty := "Science", subjects := ["BIOL"] }]
        { faculty := "Science", subjects := ["CHEM"] } =
      Except.error "TypeError: subjectBinObject.push is not a function" ∧
    insertIntoSubjectBin [{ faculty := "Science", subjects := ["BIOL"] }]
        { faculty := "Arts", subjects := ["ENGL"] } =
      Except.ok [{ faculty := "Science", subjects := ["BIOL"] },
                 { faculty := "Arts", subjects := ["ENGL"] }] :=
  ⟨rfl, rfl⟩

/-- C5: with a 500 ms delay and raw changes at t = 0 and t = 100, the only
publish is at t = 600 with the later value; in general the debouncer's
publishes are exactly the events followed by a quiet window of at least
the delay (the last event included). -/
theorem debounce_publishes_last_value :
    runDebounce 500 [(0, "cm"), (100, "cmput")] = [(600, "cmput")] ∧
    ∀ delay events, runDebounce delay events = specQuietPublishes delay events := by
  exact ⟨rfl, runDebounce_eq_quiet⟩

/-- C6 counterexample: two `loadMore` calls for a fresh id with no
response in between issue two network calls, because only the success
callback writes the cache. -/
theorem loadMore_double_call_counterexample :
    (loadMore (loadMore descInit 7) 7).networkCalls = 2 := rfl

/-- C6 amended: a `loadMore` call for an id already in the cache is a
no-op, so a second call after the first response has arrived makes no
further network call (one call in total). -/
theorem loadMore_idempotent_amended (s : DescState) (id : Nat)
    (h : (lookupA s.description id).isSome = true) :
    loadMore s id = s ∧
    ∀ text : String,
      (loadMore (detailsSuccess (loadMore descInit id) id text) id).networkCalls = 1 := by
  constructor
  · unfold loadMore
    rw [if_pos h]
  · intro text
    simp [loadMore, detailsSuccess, descInit, lookupA, setA, lookupA_setA_self]

/-- Witness for C6 amended: id 7 cached, then a fresh load-respond-load
round trip. -/
theorem loadMore_idempotent_amended_witness :
    loadMore { description := [(7, "text")], networkCalls := 1, alerts := 0 } 7 =
      { description := [(7, "text")], networkCalls := 1, alerts := 0 } ∧
    (loadMore (detailsSuccess (loadMore descInit 7) 7 "text") 7).networkCalls = 1 := by
  have h := loadMore_idempotent_amended
      { description := [(7, "text")], networkCalls := 1, alerts := 0 } 7 rfl
  exact ⟨h.1, h.2 "text"⟩

/-- C8: when the detail fetch for a fresh id fails, the cache is unchanged
and the id stays absent, so a later `loadMore` for the same id issues a
network call again. -/
theorem loadMore_failure_allows_retry (s : DescState) (id : Nat)
    (h : (lookupA s.description id).isSome = false) :
    (detailsError (loadMore s id)).description = s.description ∧
    (lookupA (detailsError (loadMore s id)).description id).isSome = false ∧
    (loadMore (detailsError (loadMore s id)) id).networkCalls =
      (detailsError (loadMore s id)).networkCalls + 1 := by
  refine ⟨?_, ?_, ?_⟩
  · simp [loadMore, detailsError, h]
  · simp [loadMore, detailsError, h]
  · simp [loadMore, detailsError, h]

/-- Witness for C8 at the empty cache and id 7. -/
theorem loadMore_failure_allows_retry_witness :
    (detailsError (loadMore descInit 7)).description = descInit.description ∧
    (lookupA (detailsError (loadMore descInit 7)).description 7).isSome = false ∧
    (loadMore (detailsError (loadMore descInit 7)) 7).networkCalls =
      (detailsError (loadMore descInit 7)).networkCalls + 1 :=
  loadMore_failure_allows_retry descInit 7 rfl

/-- C7 counterexample: a value-equal but distinct course object is not
found by `indexOf` (strict equality compares object identity), so it is
appended again: list length and counter both reach 2. -/
theorem addToSchedule_value_eq_counterexample :
    jsValueEq ⟨0, "Science", "CMPUT", "CMPUT 101"⟩
        ⟨1, "Science", "CMPUT", "CMPUT 101"⟩ = true ∧
    (addToSchedule (addToSchedule scheduleInit ⟨0, "Science", "CMPUT", "CMPUT 101"⟩)
        ⟨1, "Science", "CMPUT", "CMPUT 101"⟩).addedCourses.length = 2 ∧
    (addToSchedule (addToSchedule scheduleInit ⟨0, "Science", "CMPUT", "CMPUT 101"⟩)
        ⟨1, "Science", "CMPUT", "CMPUT 101"⟩).shoppingCartSize = 2 :=
  ⟨rfl, rfl, rfl⟩

/-- C7 amended: membership is tested by object identity (`===`), not by
value — adding a course already present by identity is a no-op, and adding
the same course object twice from the empty state yields list `[course]`
and counter 1. -/
theorem addToSchedule_idempotent_amended (s : ScheduleState) (c : JsCourse)
    (h : ∃ x ∈ s.addedCourses, jsStrictEq x c) :
    addToSchedule s c = s ∧
    ∀ d : JsCourse,
      (addToSchedule (addToSchedule scheduleInit d) d).addedCourses = [d] ∧
      (addToSchedule (addToSchedule scheduleInit d) d).shoppingCartSize = 1 := by
  constructor
  · unfold addToSchedule
    have h0 : (0 : Int) ≤ indexOfJs s.addedCourses c := indexOfAux_ge c s.addedCourses 0 h
    rw [if_neg (by omega)]
  · intro d
    have hd : jsStrictEq d d = true := by simp [jsStrictEq]
    simp [addToSchedule, scheduleInit, indexOfJs, indexOfAux, hd]

/-- Witness for C7 amended: re-adding the very same course object. -/
theorem addToSchedule_idempotent_amended_witness :
    addToSchedule
        { addedCourses := [⟨0, "Science", "CMPUT", "CMPUT 101"⟩], shoppingCartSize := 1 }
        ⟨0, "Science", "CMPUT", "CMPUT 101"⟩ =
      { addedCourses := [⟨0, "Science", "CMPUT", "CMPUT 101"⟩], shoppingCartSize := 1 } ∧
    (addToSchedule (addToSchedule scheduleInit ⟨5, "A", "B", "C"⟩)
        ⟨5, "A", "B", "C"⟩).addedCourses = [⟨5, "A", "B", "C"⟩] := by
  have h := addToSchedule_idempotent_amended
      { addedCourses := [⟨0, "Science", "CMPUT", "CMPUT 101"⟩], shoppingCartSize := 1 }
      ⟨0, "Science", "CMPUT", "CMPUT 101"⟩
      ⟨⟨0, "Science", "CMPUT", "CMPUT 101"⟩, by simp, rfl⟩
  exact ⟨h.1, (h.2 ⟨5, "A", "B", "C"⟩).1⟩

/-- C9: the single page `{objects: [Science/CMPUT/"CMPUT 101"], total_pages: 1}`
aggregates to exactly `{"Science": {"CMPUT": ["CMPUT 101"]}}`. -/
theorem aggregate_single_page_scenario :
    aggregateRun
        (fun _ => { objects := [⟨"Science", "CMPUT", "CMPUT 101"⟩], total_pages := 1 }) =
      [("Science", [("CMPUT", ["CMPUT 101"])])] := by
  have h1 : loopPages 1 = [1] := by
    rw [loopPages_eq_range']
    rfl
  simp only [aggregateRun, h1]
  rfl

/-- C10: from the initial state, after any sequence of `addToSchedule`
calls the shopping-cart counter equals the length of the added-courses
list. -/
theorem shoppingCartSize_eq_length (calls : List JsCourse) :
    (calls.foldl addToSchedule scheduleInit).shoppingCartSize =
      (calls.foldl addToSchedule scheduleInit).addedCourses.length := by
  suffices h : ∀ s : ScheduleState,
      s.shoppingCartSize = s.addedCourses.length →
      (calls.foldl addToSchedule s).shoppingCartSize =
        (calls.foldl addToSchedule s).addedCourses.length from h scheduleInit rfl
  induction calls with
  | nil => intro s hs; simpa
  | cons c rest ih =>
      intro s hs
      simp only [List.foldl_cons]
      apply ih
      unfold addToSchedule
      by_cases hc : indexOfJs s.addedCourses c = -1
      · rw [if_pos hc]
        simp [hs]
      · rw [if_neg hc]
        exact hs

end Classtime
